import Mathlib

/-!
Verification of the traffic-allocation and experiment-result-aggregation
arithmetic of the Agility CMS PostHog app.

The development shallowly embeds:
* the traffic allocator of `createExperiment`
  (src/src/components/CreateExperiment.tsx, lines 225-234);
* the result aggregation of `transformResults` and the route decision of
  `GET` in the experiment-results API route (src/unnamed/part_005);
* the display computations of the `ExperimentResults` component
  (src/src/components/ExperimentResults.tsx): total exposures, per-variant
  percentage of total, conversion rate, and winning-variant selection.

JavaScript numbers are modelled as rationals (`ℚ`) where division occurs,
and as `Nat` for the integer percentage arithmetic of the allocator.
Optional / nullable fields are modelled as `Option`.
-/

namespace PosthogApp

/-- Traffic allocator of `createExperiment`
(src/src/components/CreateExperiment.tsx lines 225-234):

```js
const totalVariants = allVariants.length
const basePercentage = Math.floor(effectiveRollout / totalVariants)
const remainder = effectiveRollout - (basePercentage * totalVariants)
const featureFlagVariants = allVariants.map((variant, index) => ({
  key: variant,
  rollout_percentage: basePercentage + (index < remainder ? 1 : 0)
}))
```

For nonnegative integers, `Math.floor` of the quotient is `Nat` division.
When `variantKeys` is empty, JavaScript's division by zero yields a
non-finite `basePercentage` without raising, and `.map` over the empty
array never evaluates the callback, so the returned list is `[]`; `Nat`
division by zero likewise never surfaces in the (empty) output list. -/
def allocateTraffic (variantKeys : List String) (totalRolloutPercent : Nat) :
    List (String × Nat) :=
  let totalVariants := variantKeys.length
  let basePercentage := totalRolloutPercent / totalVariants
  let remainder := totalRolloutPercent - basePercentage * totalVariants
  variantKeys.mapIdx fun index variant =>
    (variant, basePercentage + if index < remainder then 1 else 0)

/-- `mapIdx` indexed lookup: position `i` of `l.mapIdx f` is `f i` of
position `i` of `l`. -/
theorem mapIdx_getElem_opt {α β : Type} (f : Nat → α → β) (l : List α)
    (i : Nat) : (l.mapIdx f)[i]? = l[i]?.map (f i) := by
  induction l generalizing f i with
  | nil => simp
  | cons a l ih =>
    cases i with
    | zero => simp [List.mapIdx_cons]
    | succ j => simp [List.mapIdx_cons, ih]

/-- A `mapIdx` that pairs each element with a value depending only on its
index projects (on second components) to a map over `List.range`. -/
theorem mapIdx_pair_snd {α : Type} (l : List α) (g : Nat → Nat) :
    (l.mapIdx fun i a => (a, g i)).map Prod.snd =
      (List.range l.length).map g := by
  induction l generalizing g with
  | nil => simp
  | cons a l ih =>
    simp only [List.mapIdx_cons, List.map_cons, List.length_cons,
      List.range_succ_eq_map, List.map_map]
    exact congrArg (g 0 :: ·) (ih fun i => g (i + 1))

/-- Sum of `base` plus an extra point for the first `r` indices over
`range n`. -/
theorem sum_range_base_extra (n base r : Nat) :
    ((List.range n).map fun i => base + if i < r then 1 else 0).sum =
      n * base + min r n := by
  induction n with
  | zero => simp
  | succ n ih =>
    rw [List.range_succ, List.map_append, List.sum_append, ih, Nat.succ_mul]
    rcases Nat.lt_or_ge n r with h | h
    · rw [List.map_singleton, List.sum_singleton, if_pos h]
      omega
    · rw [List.map_singleton, List.sum_singleton, if_neg (Nat.not_lt.mpr h)]
      omega

/-- C1: for a non-empty key list and `totalRolloutPercent ≤ 100`, the
allocator assigns the variant at zero-based index `i` the percentage
`base + (1 if i < remainder else 0)` with `base = ⌊P / n⌋` and
`remainder = P - base * n`, and the assigned percentages sum exactly to
`totalRolloutPercent`; in particular exactly the first `remainder` keys,
in input order, receive the extra point. -/
theorem allocateTraffic_formula (keys : List String) (P : Nat)
    (hne : keys ≠ []) (hP : P ≤ 100) :
    (∀ i v, keys[i]? = some v →
      (allocateTraffic keys P)[i]? =
        some (v, P / keys.length +
          if i < P - P / keys.length * keys.length then 1 else 0)) ∧
    ((allocateTraffic keys P).map Prod.snd).sum = P := by
  have hn : 0 < keys.length := List.length_pos.mpr hne
  constructor
  · intro i v hv
    simp only [allocateTraffic]
    rw [mapIdx_getElem_opt, hv]
    rfl
  · simp only [allocateTraffic]
    rw [mapIdx_pair_snd, sum_range_base_extra]
    have hdm := Nat.div_add_mod P keys.length
    have hmod : P % keys.length < keys.length := Nat.mod_lt _ hn
    have hr : P - P / keys.length * keys.length = P % keys.length := by
      have hc : P / keys.length * keys.length =
          keys.length * (P / keys.length) := Nat.mul_comm _ _
      omega
    rw [hr, Nat.min_eq_left (Nat.le_of_lt hmod)]
    omega

/-- C1 witness: the sum of the percentages assigned over three keys at a
total rollout of 100 is exactly 100. -/
theorem allocateTraffic_formula_witness :
    ((allocateTraffic ["control", "a", "b"] 100).map Prod.snd).sum = 100 :=
  (allocateTraffic_formula ["control", "a", "b"] 100 (by decide)
    (by decide)).2

/-- C3 counterexample: called on the empty key list, the allocator does
not fail; it silently returns the empty allocation list. (JavaScript
division by zero yields `Infinity`/`NaN` without raising, and the `.map`
over zero keys never evaluates the callback.) -/
theorem allocateTraffic_empty_cex : allocateTraffic [] 100 = [] := by
  simp [allocateTraffic]

/-- C3 (amended): calling the allocator with an empty key list does not
fail fast — it silently returns the empty allocation list for every
rollout percentage; the caller always prepends `"control"`, so inside
`createExperiment` the allocator's input is never empty and its output is
never the empty list. -/
theorem allocateTraffic_empty_amended (P : Nat) (variants : List String) :
    allocateTraffic [] P = [] ∧
      allocateTraffic ("control" :: variants) P ≠ [] := by
  constructor
  · simp [allocateTraffic]
  · intro h
    have hlen := congrArg List.length h
    simp [allocateTraffic] at hlen

/-- C3 witness for the amended claim: at rollout 7 the empty key list
yields the empty allocation list. -/
theorem allocateTraffic_empty_amended_witness :
    allocateTraffic [] 7 = [] :=
  (allocateTraffic_empty_amended 7 []).1

/-- C4: with a zero total rollout percent, every variant is allocated a
rollout percentage of zero. -/
theorem allocateTraffic_zero_total (keys : List String) (hne : keys ≠ []) :
    allocateTraffic keys 0 = keys.map fun k => (k, 0) := by
  apply List.ext_getElem?
  intro i
  rw [List.getElem?_map]
  simp only [allocateTraffic]
  rw [mapIdx_getElem_opt]
  cases h : keys[i]? <;> simp

/-- C4 witness: the sole key `"control"` receives 0 when the total rollout
is 0. -/
theorem allocateTraffic_zero_total_witness :
    allocateTraffic ["control"] 0 = [("control", 0)] := by
  rw [allocateTraffic_zero_total ["control"] (by decide)]
  rfl

/-! ## Result aggregation (src/unnamed/part_005)

The experiment-results API route fetches the experiment, queries each
configured metric, and transforms the valid results via
`transformResults`. Variant data from PostHog's `ExperimentQuery`
(interface `VariantData`) carries nullable/optional fields, modelled with
`Option`; JavaScript's `??` falls through on `null`/`undefined` only, and
`||` additionally falls through on `0`. -/

/-- PostHog experiment metric configuration (the fields `transformResults`
reads: `name` and `uuid`). -/
structure ExperimentMetric where
  name : String
  uuid : String
deriving Repr, DecidableEq

/-- Variant data from PostHog's `ExperimentQuery` response
(src/unnamed/part_005 lines 47-58). `chance_to_win?: number | null` and
absent fields are both modelled as `none`. -/
structure VariantData where
  key : String
  number_of_samples : Option ℚ
  step_counts : Option (List ℚ)
  success_count : Option ℚ
  failure_count : Option ℚ
  chance_to_win : Option ℚ
  sum : Option ℚ
deriving Repr, DecidableEq

/-- The `result` object of one `ExperimentQuery` response
(src/unnamed/part_005 lines 36-45). -/
structure QueryResultData where
  baseline : Option VariantData
  variant_results : Option (List VariantData)
  significant : Option Bool
  credible_intervals : Option (List (String × (ℚ × ℚ)))
deriving Repr, DecidableEq

/-- One per-metric result pair `{ metric, result }` as collected by the
route. -/
structure MetricResult where
  metric : ExperimentMetric
  result : QueryResultData
deriving Repr, DecidableEq

/-- An element of the transformed top-level `variants` array
(src/unnamed/part_005 lines 177-183). -/
structure AggVariant where
  key : String
  count : ℚ
  absolute_exposure : ℚ
  success_count : ℚ
  failure_count : Option ℚ
deriving Repr, DecidableEq

/-- An element of a `primary_metric_results[..].variants` array
(src/unnamed/part_005 lines 240-261). -/
structure MetricVariant where
  key : String
  count : ℚ
  exposure : ℚ
  absolute_exposure : ℚ
  success_count : Option ℚ
  failure_count : Option ℚ
deriving Repr, DecidableEq

/-- One element of `primary_metric_results` (action plus variant list). -/
structure MetricOut where
  action_name : String
  action_id : String
  variants : List MetricVariant
deriving Repr, DecidableEq

/-- The value returned by `transformResults`
(src/unnamed/part_005 lines 264-270). The `probability` object is an
association list in insertion order (JavaScript object keys here are
non-numeric strings, so `Object.entries` preserves insertion order). -/
structure TransformedResults where
  variants : List AggVariant
  probability : List (String × ℚ)
  significant : Bool
  credible_intervals : List (String × (ℚ × ℚ))
  primary_metric_results : List MetricOut
deriving Repr, DecidableEq

/-- The derived success count of a sample:
`v.step_counts?.[0] ?? v.sum ?? v.success_count ?? 0`
(src/unnamed/part_005 lines 192-195 and 209-212). -/
def successCountOf (v : VariantData) : ℚ :=
  (((v.step_counts.bind List.head?).or v.sum).or v.success_count).getD 0

/-- The per-metric `count` field:
`step_counts?.[0] ?? sum ?? 0` (src/unnamed/part_005 lines 245 and 255). -/
def metricCountOf (v : VariantData) : ℚ :=
  ((v.step_counts.bind List.head?).or v.sum).getD 0

/-- The per-metric `success_count` field:
`step_counts?.[0] ?? sum ?? success_count`
(src/unnamed/part_005 lines 248 and 258). -/
def metricSuccessOf (v : VariantData) : Option ℚ :=
  ((v.step_counts.bind List.head?).or v.sum).or v.success_count

/-- The record pushed onto `allVariants` for one sample
(src/unnamed/part_005 lines 196-202 and 213-219);
`number_of_samples || 0` is `getD 0` (`0 || 0 = 0` as well). -/
def mkAggVariant (v : VariantData) : AggVariant :=
  { key := v.key
    count := v.number_of_samples.getD 0
    absolute_exposure := v.number_of_samples.getD 0
    success_count := successCountOf v
    failure_count := v.failure_count }

/-- The record built for one sample inside `primary_metric_results`
(src/unnamed/part_005 lines 242-250 and 252-260). -/
def mkMetricVariant (v : VariantData) : MetricVariant :=
  { key := v.key
    count := metricCountOf v
    exposure := v.number_of_samples.getD 0
    absolute_exposure := v.number_of_samples.getD 0
    success_count := metricSuccessOf v
    failure_count := v.failure_count }

/-- `transformResults` (src/unnamed/part_005 lines 175-271).

`primaryResult` is `metricResults[0]?.result`; an empty
`variant_results` array is truthy in JavaScript and iterates no elements,
so both the `if (primaryResult.variant_results)` guard and the
`(result.variant_results || [])` default are `getD []`. -/
def transformResults (metricResults : List MetricResult) :
    TransformedResults :=
  let primaryResult := metricResults.head?.map MetricResult.result
  let allVariants :=
    match primaryResult with
    | none => []
    | some pr =>
      (match pr.baseline with
       | some b => [mkAggVariant b]
       | none => []) ++
      (pr.variant_results.getD []).map mkAggVariant
  let probability :=
    (match primaryResult.bind QueryResultData.baseline with
     | some b =>
       match b.chance_to_win with
       | some p => [(b.key, p)]
       | none => []
     | none => []) ++
    ((primaryResult.bind QueryResultData.variant_results).getD []).filterMap
      fun v => v.chance_to_win.map fun p => (v.key, p)
  let primaryMetricResults := metricResults.map fun mr =>
    { action_name := mr.metric.name
      action_id := mr.metric.uuid
      variants :=
        (match mr.result.baseline with
         | some b => [mkMetricVariant b]
         | none => []) ++
        (mr.result.variant_results.getD []).map mkMetricVariant :
      MetricOut }
  { variants := allVariants
    probability := probability
    significant := (primaryResult.bind QueryResultData.significant).getD false
    credible_intervals :=
      (primaryResult.bind QueryResultData.credible_intervals).getD []
    primary_metric_results := primaryMetricResults }

/-- The samples the top-level `variants` and `probability` outputs are
drawn from: the primary (first) metric result's baseline, then its
`variant_results` in upstream order. -/
def primarySamples (metricResults : List MetricResult) : List VariantData :=
  match metricResults.head? with
  | none => []
  | some mr => mr.result.baseline.toList ++ mr.result.variant_results.getD []

/-- The top-level `variants` output lists exactly the primary samples,
baseline first then the other variants in upstream order, each reshaped
by `mkAggVariant`. -/
theorem transformResults_variants_eq (metricResults : List MetricResult) :
    (transformResults metricResults).variants =
      (primarySamples metricResults).map mkAggVariant := by
  cases metricResults with
  | nil => rfl
  | cons mr rest =>
    simp only [transformResults, primarySamples, List.head?_cons,
      Option.map_some', Option.some.injEq, List.map_append]
    cases mr.result.baseline <;> simp

/-- The `probability` output collects, in insertion order, the key and
`chance_to_win` of every primary sample whose `chance_to_win` is
non-null. -/
theorem transformResults_probability_eq (metricResults : List MetricResult) :
    (transformResults metricResults).probability =
      (primarySamples metricResults).filterMap
        fun v => v.chance_to_win.map fun p => (v.key, p) := by
  cases metricResults with
  | nil => rfl
  | cons mr rest =>
    simp only [transformResults, primarySamples, List.head?_cons,
      Option.map_some', List.filterMap_append]
    cases hb : mr.result.baseline with
    | none => simp [hb]
    | some b =>
      cases hc : b.chance_to_win <;>
        simp [hb, hc, Option.toList, List.filterMap_cons]

/-- The `Option.or` chain of `successCountOf` spelt as the spec's
first-available-value cascade. -/
theorem successCountOf_precedence_cases (s : VariantData) :
    successCountOf s =
      match s.step_counts.bind List.head? with
      | some x => x
      | none =>
        match s.sum with
        | some y => y
        | none =>
          match s.success_count with
          | some z => z
          | none => 0 := by
  unfold successCountOf
  cases s.step_counts.bind List.head? <;> cases s.sum <;>
    cases s.success_count <;> rfl

/-- A concrete sample carrying both a funnel step count of 40 and a mean
sum of 999. -/
def sampleForty : VariantData :=
  { key := "variant_a"
    number_of_samples := some 100
    step_counts := some [40]
    success_count := some 7
    failure_count := none
    chance_to_win := none
    sum := some 999 }

/-- A metric result whose baseline is `sampleForty`. -/
def mrForty : MetricResult :=
  { metric := { name := "CTA Clicks", uuid := "m1" }
    result :=
      { baseline := some sampleForty
        variant_results := some []
        significant := none
        credible_intervals := none } }

/-- C2: every sample's derived success count in the aggregated variant
list is resolved by first-available-value precedence — the step count at
the first funnel step if present, else the summed mean value, else the
explicit success-count field, else 0; and a sample with both a funnel
step count of 40 and a mean sum of 999 resolves to 40. -/
theorem transformResults_successCount_precedence
    (metricResults : List MetricResult) :
    (∀ (i : Nat) (s : VariantData),
      (primarySamples metricResults)[i]? = some s →
      ((transformResults metricResults).variants[i]?).map
          AggVariant.success_count =
        some (match s.step_counts.bind List.head? with
          | some x => x
          | none =>
            match s.sum with
            | some y => y
            | none =>
              match s.success_count with
              | some z => z
              | none => 0)) ∧
    successCountOf sampleForty = 40 := by
  constructor
  · intro i s hs
    rw [transformResults_variants_eq, List.getElem?_map, hs]
    rw [← successCountOf_precedence_cases]
    rfl
  · rfl

/-- C2 witness: for the concrete metric result whose baseline carries a
funnel step count of 40 and a mean sum of 999, the aggregated success
count is 40. -/
theorem transformResults_successCount_precedence_witness :
    ((transformResults [mrForty]).variants[0]?).map
        AggVariant.success_count = some 40 :=
  (transformResults_successCount_precedence [mrForty]).1 0 sampleForty rfl

/-- C10: in the transformed output, every top-level variant has
`count = absolute_exposure`, both equal to the sample's
`number_of_samples` (0 when missing); the variants align index-by-index
with the baseline-first, upstream-ordered sample list; and every
per-metric variant entry has `exposure = absolute_exposure`. -/
theorem transformResults_exposure_invariants
    (metricResults : List MetricResult) :
    ((transformResults metricResults).variants.length =
        (primarySamples metricResults).length ∧
      ∀ (i : Nat) (s : VariantData),
        (primarySamples metricResults)[i]? = some s →
        ∃ v : AggVariant,
          (transformResults metricResults).variants[i]? = some v ∧
          v.key = s.key ∧ v.count = s.number_of_samples.getD 0 ∧
          v.absolute_exposure = v.count) ∧
    ∀ mo ∈ (transformResults metricResults).primary_metric_results,
      ∀ v ∈ mo.variants, v.exposure = v.absolute_exposure := by
  refine ⟨⟨?_, ?_⟩, ?_⟩
  · rw [transformResults_variants_eq, List.length_map]
  · intro i s hs
    refine ⟨mkAggVariant s, ?_, rfl, rfl, rfl⟩
    rw [transformResults_variants_eq, List.getElem?_map, hs]
    rfl
  · intro mo hmo v hv
    simp only [transformResults, List.mem_map] at hmo
    obtain ⟨mr, -, rfl⟩ := hmo
    simp only [List.mem_append] at hv
    rcases hv with hvb | hvr
    · cases hb : mr.result.baseline with
      | none => rw [hb] at hvb; simp at hvb
      | some b =>
        rw [hb] at hvb
        simp only [List.mem_singleton] at hvb
        subst hvb
        rfl
    · rcases List.mem_map.mp hvr with ⟨s, -, rfl⟩
      rfl

/-- C10 witness: the first aggregated variant of a concrete transform has
`count = absolute_exposure = number_of_samples`. -/
theorem transformResults_exposure_invariants_witness :
    ∃ v : AggVariant,
      (transformResults [mrForty]).variants[0]? = some v ∧
      v.key = sampleForty.key ∧
      v.count = sampleForty.number_of_samples.getD 0 ∧
      v.absolute_exposure = v.count :=
  (transformResults_exposure_invariants [mrForty]).1.2 0 sampleForty rfl

/-- C5: a key appears in the probability mapping exactly when some
primary sample with that key has a non-null `chance_to_win`, whose value
is copied verbatim; a variant whose samples all have null
`chance_to_win` is omitted from the mapping entirely. -/
theorem transformResults_probability_omission
    (metricResults : List MetricResult) :
    (∀ (k : String) (p : ℚ),
      (k, p) ∈ (transformResults metricResults).probability ↔
      ∃ s ∈ primarySamples metricResults,
        s.key = k ∧ s.chance_to_win = some p) ∧
    ∀ k, (∀ s ∈ primarySamples metricResults,
        s.key = k → s.chance_to_win = none) →
      k ∉ (transformResults metricResults).probability.map Prod.fst := by
  have hmem : ∀ (k : String) (p : ℚ),
      (k, p) ∈ (transformResults metricResults).probability ↔
        ∃ s ∈ primarySamples metricResults,
          s.key = k ∧ s.chance_to_win = some p := by
    intro k p
    rw [transformResults_probability_eq, List.mem_filterMap]
    constructor
    · rintro ⟨s, hsmem, hf⟩
      rcases Option.map_eq_some'.mp hf with ⟨q, hq, hpair⟩
      cases hpair
      exact ⟨s, hsmem, rfl, hq⟩
    · rintro ⟨s, hsmem, rfl, hq⟩
      exact ⟨s, hsmem, by rw [hq]; rfl⟩
  refine ⟨hmem, ?_⟩
  intro k hnone hk
  rcases List.mem_map.mp hk with ⟨⟨k', p⟩, hkp, hfst⟩
  cases hfst
  rcases (hmem _ p).mp hkp with ⟨s, hsmem, hkey, hctw⟩
  rw [hnone s hsmem hkey] at hctw
  cases hctw

/-- A metric result whose baseline has a null `chance_to_win`. -/
def mrNullChance : MetricResult :=
  { metric := { name := "CTA Clicks", uuid := "m2" }
    result :=
      { baseline := some
          { key := "variant_a"
            number_of_samples := some 1000
            step_counts := none
            success_count := some 5
            failure_count := none
            chance_to_win := none
            sum := none }
        variant_results := some []
        significant := none
        credible_intervals := none } }

/-- C5 witness: a variant whose `chance_to_win` is null contributes no
key to the probability mapping. -/
theorem transformResults_probability_omission_witness :
    "variant_a" ∉
      ((transformResults [mrNullChance]).probability.map Prod.fst) :=
  (transformResults_probability_omission [mrNullChance]).2 "variant_a"
    (by decide)

/-- The route's response shape: the `noResults` marker is a distinct
constructor from a transformed-results payload
(src/unnamed/part_005 lines 105-152). -/
inductive RouteResponse where
  | noResults (reason : String)
  | results (t : TransformedResults)
deriving Repr, DecidableEq

/-- The aggregation decision of `GET` after the experiment fetch
(src/unnamed/part_005 lines 105-152): a missing or empty metrics list
yields the `noResults` marker before any query; otherwise each metric is
queried, failed queries become `null` and are filtered out, an all-failed
query set yields the `noResults` marker, and otherwise the valid results
are transformed. The per-metric query outcome is abstracted as `query`. -/
def routeResults (metrics : Option (List ExperimentMetric))
    (query : ExperimentMetric → Option QueryResultData) : RouteResponse :=
  match metrics with
  | none => .noResults "No metrics configured"
  | some ms =>
    if ms.isEmpty then .noResults "No metrics configured"
    else
      let metricResults := ms.map fun m => (query m).map (MetricResult.mk m)
      let validResults := metricResults.filterMap id
      if validResults.isEmpty then .noResults "No valid metric results"
      else .results (transformResults validResults)

/-- C8: with no metrics configured (missing or empty list), or with every
per-metric query failing, the route skips aggregation and returns the
`noResults` marker, which is distinguishable from every transformed
(possibly all-zero) results payload. -/
theorem routeResults_noData
    (query : ExperimentMetric → Option QueryResultData) :
    (routeResults none query = .noResults "No metrics configured") ∧
    (routeResults (some []) query = .noResults "No metrics configured") ∧
    (∀ ms : List ExperimentMetric, (∀ m ∈ ms, query m = none) →
      ∃ reason, routeResults (some ms) query = .noResults reason) ∧
    ∀ (reason : String) (t : TransformedResults),
      RouteResponse.noResults reason ≠ RouteResponse.results t := by
  refine ⟨rfl, rfl, ?_, ?_⟩
  · intro ms hq
    cases ms with
    | nil => exact ⟨"No metrics configured", rfl⟩
    | cons m rest =>
      refine ⟨"No valid metric results", ?_⟩
      simp only [routeResults]
      simp [List.filterMap_eq_nil_iff]
      exact ⟨hq m (List.mem_cons_self m rest),
        fun x hx => hq x (List.mem_cons_of_mem m hx)⟩
  · intro reason t h
    cases h

/-- C8 witness: a single configured metric whose query fails yields the
`noResults` marker. -/
theorem routeResults_noData_witness :
    ∃ reason,
      routeResults (some [{ name := "CTA Clicks", uuid := "m1" }])
        (fun _ => none) = .noResults reason :=
  (routeResults_noData (fun _ => none)).2.2.1
    [{ name := "CTA Clicks", uuid := "m1" }] (fun _ _ => rfl)

/-! ## Results display (src/src/components/ExperimentResults.tsx) -/

/-- A variant record as consumed by the `ExperimentResults` component
(the top-level `VariantResult` entries and the per-metric `variants`
entries), with the numeric fields optional as in the interfaces. -/
structure DisplayVariant where
  key : String
  count : Option ℚ
  exposure : Option ℚ
  absolute_exposure : Option ℚ
  success_count : Option ℚ
  failure_count : Option ℚ
deriving Repr, DecidableEq

/-- JavaScript `x || e` for a numeric `x`: `x` unless missing or 0. -/
def jsNumOr (x : Option ℚ) (e : ℚ) : ℚ :=
  match x with
  | some a => if a = 0 then e else a
  | none => e

/-- Per-variant exposure count used by the display:
`v.absolute_exposure || v.count || 0`
(src/src/components/ExperimentResults.tsx lines 105 and 160). -/
def exposuresOf (v : DisplayVariant) : ℚ :=
  jsNumOr v.absolute_exposure (jsNumOr v.count 0)

/-- `totalExposures` (line 105): the reduce-sum of per-variant exposure
counts, seeded with 0. -/
def totalExposures (variants : List DisplayVariant) : ℚ :=
  variants.foldl (fun s v => s + exposuresOf v) 0

/-- `exposurePercent` (lines 159-161): the variant's share of total
exposures, 0 when the total is not positive. -/
def exposurePercent (variants : List DisplayVariant)
    (v : DisplayVariant) : ℚ :=
  if totalExposures variants > 0
  then exposuresOf v / totalExposures variants * 100 else 0

/-- The exposure reduce from an arbitrary accumulator is the accumulator
plus the sum of per-variant exposures. -/
theorem foldl_exposures_eq_sum (variants : List DisplayVariant) :
    ∀ a : ℚ, variants.foldl (fun s v => s + exposuresOf v) a =
      a + (variants.map exposuresOf).sum := by
  induction variants with
  | nil => intro a; simp
  | cons v l ih =>
    intro a
    rw [List.foldl_cons, ih, List.map_cons, List.sum_cons]
    ring

/-- C7: the displayed total is the sum of per-variant exposure counts;
when it is 0 every per-variant percentage of total evaluates to 0 with no
division, and when it is positive the percentage is
`exposures / totalExposures * 100`. -/
theorem exposurePercent_safe (variants : List DisplayVariant) :
    (totalExposures variants = (variants.map exposuresOf).sum) ∧
    (totalExposures variants = 0 →
      ∀ v : DisplayVariant, exposurePercent variants v = 0) ∧
    (totalExposures variants > 0 →
      ∀ v : DisplayVariant, exposurePercent variants v =
        exposuresOf v / totalExposures variants * 100) := by
  refine ⟨?_, ?_, ?_⟩
  · rw [totalExposures, foldl_exposures_eq_sum, zero_add]
  · intro h v
    simp [exposurePercent, h]
  · intro h v
    simp [exposurePercent, h]

/-- C7 witness: with a single variant of zero exposures the total is 0
and its percentage of total is 0. -/
theorem exposurePercent_safe_witness :
    exposurePercent [⟨"control", some 0, none, some 0, none, none⟩]
      ⟨"control", some 0, none, some 0, none, none⟩ = 0 :=
  (exposurePercent_safe [⟨"control", some 0, none, some 0, none, none⟩]).2.1
    (by simp [totalExposures, exposuresOf, jsNumOr])
    ⟨"control", some 0, none, some 0, none, none⟩

/-- `conversionRate` (src/src/components/ExperimentResults.tsx lines
231-233): `v.exposure && v.success_count !== undefined ?
(v.success_count / v.exposure) * 100 : null`; a missing or zero exposure
is falsy. -/
def conversionRate (v : DisplayVariant) : Option ℚ :=
  match v.exposure with
  | none => none
  | some e =>
    if e = 0 then none
    else
      match v.success_count with
      | none => none
      | some s => some (s / e * 100)

/-- C6: for variants with nonnegative exposure counts, the conversion
rate is `success_count / exposure * 100` exactly when the exposure is
positive and a success count is present, and null otherwise; the concrete
baseline (1000 exposures, 250 successes) yields 25 and the concrete
variant (1000 exposures, 300 successes) yields 30. -/
theorem conversionRate_spec (v : DisplayVariant)
    (hexp : ∀ e : ℚ, v.exposure = some e → 0 ≤ e) :
    (∀ (e s : ℚ), v.exposure = some e → 0 < e → v.success_count = some s →
      conversionRate v = some (s / e * 100)) ∧
    ((¬ ∃ e : ℚ, v.exposure = some e ∧ 0 < e ∧ v.success_count ≠ none) →
      conversionRate v = none) ∧
    conversionRate ⟨"control", none, some 1000, none, some 250, none⟩ =
      some 25 ∧
    conversionRate ⟨"variant_a", none, some 1000, none, some 300, none⟩ =
      some 30 := by
  refine ⟨?_, ?_, by norm_num [conversionRate], by norm_num [conversionRate]⟩
  · intro e s he hpos hs
    simp [conversionRate, he, hs, hpos.ne']
  · intro hno
    cases he : v.exposure with
    | none => simp [conversionRate, he]
    | some e =>
      by_cases h0 : e = 0
      · simp [conversionRate, he, h0]
      · cases hs : v.success_count with
        | none => simp [conversionRate, he, hs, h0]
        | some s =>
          exact absurd
            ⟨e, he, lt_of_le_of_ne (hexp e he) (Ne.symm h0),
              by rw [hs]; exact Option.some_ne_none s⟩ hno

/-- C6 witness: the concrete baseline with 1000 exposures and 250
successes has conversion rate 25. -/
theorem conversionRate_spec_witness :
    conversionRate ⟨"control", none, some 1000, none, some 250, none⟩ =
      some 25 :=
  (conversionRate_spec ⟨"control", none, some 1000, none, some 250, none⟩
    (fun e he => by
      injection he with h
      rw [← h]
      norm_num)).2.2.1

/-- One step of the winning-variant reduce
(src/src/components/ExperimentResults.tsx lines 108-111):
`prob > best.prob ? { key, prob } : best`. -/
def winStep (best kp : String × ℚ) : String × ℚ :=
  if kp.2 > best.2 then kp else best

/-- `winningVariant` (lines 107-111): reduce over the probability entries
in insertion order, seeded with the sentinel `{ key: '', prob: 0 }`. -/
def winningVariant (probability : List (String × ℚ)) : String × ℚ :=
  probability.foldl winStep ("", 0)

/-- Characterization of the winning-variant reduce from an arbitrary
accumulator: either no entry strictly beats the accumulator, which is
returned unchanged, or the result is the first entry attaining the
maximum — strictly above the accumulator and every earlier entry, at
least as great as every entry. -/
theorem foldl_winner (l : List (String × ℚ)) : ∀ best : String × ℚ,
    (l.foldl winStep best = best ∧
      ∀ (j : Nat) (kp : String × ℚ), l[j]? = some kp → kp.2 ≤ best.2) ∨
    (∃ i : Nat, l[i]? = some (l.foldl winStep best) ∧
      best.2 < (l.foldl winStep best).2 ∧
      (∀ (j : Nat) (kp : String × ℚ), j < i → l[j]? = some kp →
        kp.2 < (l.foldl winStep best).2) ∧
      (∀ (j : Nat) (kp : String × ℚ), l[j]? = some kp →
        kp.2 ≤ (l.foldl winStep best).2)) := by
  induction l with
  | nil =>
    intro best
    left
    exact ⟨rfl, fun j kp h => by simp at h⟩
  | cons a l ih =>
    intro best
    rw [List.foldl_cons]
    by_cases h : a.2 > best.2
    · have hstep : winStep best a = a := if_pos h
      rw [hstep]
      rcases ih a with ⟨heq, hall⟩ | ⟨i, hi, hlt, hbef, hall⟩
      · right
        rw [heq]
        refine ⟨0, by simp, h, ?_, ?_⟩
        · intro j kp hj _
          exact absurd hj (Nat.not_lt_zero j)
        · intro j kp hj
          cases j with
          | zero =>
            rw [List.getElem?_cons_zero] at hj
            cases hj
            exact le_refl _
          | succ j' =>
            rw [List.getElem?_cons_succ] at hj
            exact hall j' kp hj
      · right
        refine ⟨i + 1, ?_, lt_trans h hlt, ?_, ?_⟩
        · rw [List.getElem?_cons_succ]
          exact hi
        · intro j kp hj hkp
          cases j with
          | zero =>
            rw [List.getElem?_cons_zero] at hkp
            cases hkp
            exact hlt
          | succ j' =>
            rw [List.getElem?_cons_succ] at hkp
            exact hbef j' kp (by omega) hkp
        · intro j kp hj
          cases j with
          | zero =>
            rw [List.getElem?_cons_zero] at hj
            cases hj
            exact le_of_lt hlt
          | succ j' =>
            rw [List.getElem?_cons_succ] at hj
            exact hall j' kp hj
    · have hstep : winStep best a = best := if_neg h
      rw [hstep]
      have hle : a.2 ≤ best.2 := not_lt.mp h
      rcases ih best with ⟨heq, hall⟩ | ⟨i, hi, hlt, hbef, hall⟩
      · left
        refine ⟨heq, ?_⟩
        intro j kp hj
        cases j with
        | zero =>
          rw [List.getElem?_cons_zero] at hj
          cases hj
          exact hle
        | succ j' =>
          rw [List.getElem?_cons_succ] at hj
          exact hall j' kp hj
      · right
        refine ⟨i + 1, ?_, hlt, ?_, ?_⟩
        · rw [List.getElem?_cons_succ]
          exact hi
        · intro j kp hj hkp
          cases j with
          | zero =>
            rw [List.getElem?_cons_zero] at hkp
            cases hkp
            exact lt_of_le_of_lt hle hlt
          | succ j' =>
            rw [List.getElem?_cons_succ] at hkp
            exact hbef j' kp (by omega) hkp
        · intro j kp hj
          cases j with
          | zero =>
            rw [List.getElem?_cons_zero] at hj
            cases hj
            exact le_trans hle (le_of_lt hlt)
          | succ j' =>
            rw [List.getElem?_cons_succ] at hj
            exact hall j' kp hj

/-- C9 counterexample: on the mapping `{"a": 0}` the entry with the
highest probability is `("a", 0)`, but the reduce keeps the sentinel
`("", 0)` because the comparison is strict against the seed probability
0, so the claimed winner is not selected. -/
theorem winningVariant_cex :
    winningVariant [("a", 0)] = ("", 0) ∧
      (("" : String), (0 : ℚ)) ≠ ("a", 0) := by
  constructor
  · rfl
  · decide

/-- C9 (amended): provided some entry has strictly positive probability,
the selected winner is the first entry attaining the maximum probability
— at least as great as every entry and strictly above every earlier
entry; when every probability is at most 0 the reduce returns the
sentinel `("", 0)` and no variant is emphasized. -/
theorem winningVariant_amended (probs : List (String × ℚ)) :
    ((∃ kp ∈ probs, 0 < kp.2) →
      ∃ i : Nat, probs[i]? = some (winningVariant probs) ∧
        (∀ (j : Nat) (kp : String × ℚ), probs[j]? = some kp →
          kp.2 ≤ (winningVariant probs).2) ∧
        (∀ (j : Nat) (kp : String × ℚ), j < i → probs[j]? = some kp →
          kp.2 < (winningVariant probs).2)) ∧
    ((∀ kp ∈ probs, kp.2 ≤ 0) → winningVariant probs = ("", 0)) := by
  constructor
  · intro hpos
    rcases foldl_winner probs ("", 0) with ⟨heq, hall⟩ |
      ⟨i, hi, _, hbef, hall⟩
    · exfalso
      rcases hpos with ⟨kp, hmem, hkp⟩
      rcases List.mem_iff_getElem?.mp hmem with ⟨j, hj⟩
      have := hall j kp hj
      simp only at this
      linarith
    · exact ⟨i, hi, hall, hbef⟩
  · intro hnonpos
    rcases foldl_winner probs ("", 0) with ⟨heq, _⟩ |
      ⟨i, hi, hlt, _, _⟩
    · exact heq
    · exfalso
      have hmem : probs.foldl winStep ("", 0) ∈ probs :=
        List.mem_iff_getElem?.mpr ⟨i, hi⟩
      have := hnonpos _ hmem
      simp only at hlt
      linarith

/-- C9 witness for the amended claim: with two tied positive entries the
reduce selects the first. -/
theorem winningVariant_amended_witness :
    ∃ i : Nat,
      [("control", (1 : ℚ)), ("variant_a", 1)][i]? =
        some (winningVariant
          [("control", (1 : ℚ)), ("variant_a", 1)]) ∧
      (∀ (j : Nat) (kp : String × ℚ),
        [("control", (1 : ℚ)), ("variant_a", 1)][j]? = some kp →
        kp.2 ≤ (winningVariant
          [("control", (1 : ℚ)), ("variant_a", 1)]).2) ∧
      (∀ (j : Nat) (kp : String × ℚ), j < i →
        [("control", (1 : ℚ)), ("variant_a", 1)][j]? = some kp →
        kp.2 < (winningVariant
          [("control", (1 : ℚ)), ("variant_a", 1)]).2) :=
  (winningVariant_amended
    [("control", (1 : ℚ)), ("variant_a", 1)]).1 (by decide)

end PosthogApp
